import Mathlib

/-!
# ebs-autoresize: a shallow embedding of `volumes/ebs.go`

The Go package `volumes` grows EBS volumes whose filesystems are filling up:
`ResizeDisk` lists the disks (`filterDisks`), and for each disk over the
threshold computes a target size (`findNewSize`), asks EC2 to modify the
volume and waits for it (`ebsResize`, `waitForEbsResize`), then grows the
partition (`growPartition`) and the filesystem (`fsResize`).

Modelling conventions.

* `float64` values are finite rationals (no NaN, no infinities, no signed
  zero); every arithmetic operation of the source is the exact operation
  followed by `roundF64`, IEEE-754 binary64 round-to-nearest-even (53
  significant bits, gradual underflow).  An operation whose rounded result
  leaves the finite range yields `none`.
* Go strings are Lean strings, read as their list of characters (one
  character per byte, which is exact for ASCII device paths).
* The outside world (EC2, the metadata service, the disk probes, the
  external programs) is a deterministic oracle `Env` whose answers may depend
  on everything the program did before, recorded as a list of `Event`s.
* `waitForEbsResize` recurses without bound in the source, so it carries a
  fuel argument, one unit per poll; when it runs out the outcome is
  `unfinished` and the events so far are kept.
-/

namespace Volumes

/-! ## binary64 arithmetic -/

/-- The rational `2 ^ e` for an integer exponent. -/
def pow2 (e : Int) : ℚ :=
  if 0 ≤ e then ((2 ^ e.toNat : Nat) : ℚ) else 1 / ((2 ^ (-e).toNat : Nat) : ℚ)

/-- Worker of `ilog2`: halve `n` until it drops below two, at most `fuel` times. -/
def ilog2Aux : Nat → Nat → Nat
  | 0, _ => 0
  | fuel + 1, n => if n < 2 then 0 else ilog2Aux fuel (n / 2) + 1

/-- The position of the leading bit of a positive natural: `⌊log₂ n⌋`. -/
def ilog2 (n : Nat) : Nat := ilog2Aux n n

/-- The binary exponent of a non-zero rational: `⌊log₂ |x|⌋`. -/
def binade (x : ℚ) : Int :=
  let k : Int := (ilog2 x.num.natAbs : Int) - (ilog2 x.den : Int)
  if pow2 k ≤ |x| then k else k - 1

/-- Round a rational to the nearest integer, ties to the even one. -/
def roundHalfEven (q : ℚ) : Int :=
  let f := ⌊q⌋
  let r := q - f
  if r < 1 / 2 then f
  else if 1 / 2 < r then f + 1
  else if f % 2 = 0 then f else f + 1

/-- IEEE-754 binary64 rounding (round to nearest, ties to even) of an exact
result `x`: the unit in the last place is `2 ^ (e - 52)` where `e` is the
binary exponent of `x`, not below the subnormal exponent `-1022`.  The result
is `none` when the rounded magnitude reaches `2 ^ 1024` (overflow). -/
def roundF64 (x : ℚ) : Option ℚ :=
  if x = 0 then some 0
  else
    let e := max (binade x) (-1022)
    let y := (roundHalfEven (x / pow2 (e - 52)) : ℚ) * pow2 (e - 52)
    if |y| < pow2 1024 then some y else none

/-- Go conversion `int32(v)` of a finite `float64`: the fraction is
discarded (truncation toward zero).  When the truncated value does not fit
in 32 bits the Go specification leaves the result to the implementation:
`none`. -/
def toInt32 (v : ℚ) : Option Int :=
  let t : Int := if 0 ≤ v then ⌊v⌋ else ⌈v⌉
  if -2147483648 ≤ t ∧ t ≤ 2147483647 then some t else none

/-- The source function `findNewSize(oldSize uint64, increasePercent float64) int32`:
`gbSize := float64(oldSize) / math.Pow(1024, 3)`,
`newSize := ((gbSize * increasePercent) / 100) + gbSize`, `return int32(newSize)`.
`math.Pow(1024, 3)` is the exact power of two `1073741824`.  The result is
`none` when the Go specification does not determine it (a non-finite
intermediate value or an out-of-range conversion). -/
def findNewSize (oldSize : Nat) (increasePercent : ℚ) : Option Int :=
  (roundF64 (oldSize : ℚ)).bind fun o =>
  (roundF64 (o / 1073741824)).bind fun gbSize =>
  (roundF64 (gbSize * increasePercent)).bind fun m =>
  (roundF64 (m / 100)).bind fun d =>
  (roundF64 (d + gbSize)).bind fun newSize =>
  toInt32 newSize

/-! ## Data model -/

/-- The Go struct `DiskData`. -/
structure DiskData where
  VolumeID : String
  DeviceName : String
  MountPoint : String
  TotalUsed : ℚ
  TotalSpace : Nat
  FsType : String
  VolumeSize : Int
  deriving DecidableEq

/-- One entry of `disk.Partitions` (gopsutil `PartitionStat`), the fields read. -/
structure PartitionStat where
  Device : String
  Mountpoint : String
  Fstype : String
  deriving DecidableEq

/-- The result of `disk.Usage` (gopsutil `UsageStat`), the fields read. -/
structure UsageStat where
  UsedPercent : ℚ
  Total : Nat
  deriving DecidableEq

/-- One entry of `DescribeVolumesOutput.Volumes`, the fields read; `VolumeId`
is a `*string` in the SDK. -/
structure Volume where
  VolumeId : Option String
  Size : Int
  deriving DecidableEq

/-- An error value handed to the package by a library or service.  `api` is
an error for which `errors.As(err, &smithy.APIError)` succeeds, with its
`ErrorCode()` and `ErrorMessage()`; `other` is any other error. -/
inductive ExtError where
  | api (code message : String)
  | other (text : String)
  deriving DecidableEq

/-- The `error` values that flow through the package: errors received from
outside, and the package's own sentinel `errVolumeRetryLater`. -/
inductive GoError where
  | ext (e : ExtError)
  | volumeRetryLater
  deriving DecidableEq

/-- Everything the program does to the outside world, in order. -/
inductive Event where
  | log (line : String)
  | fatal (e : GoError)
  | getEc2Client
  | getInstanceID
  | partitions
  | scanDevice (device : String)
  | describeVolumes (attachmentDevice instanceID : String)
  | usage (mountPoint : String)
  | modifyVolume (volumeID : String) (size : Int)
  | describeVolumesModifications (volumeID : String)
  | sleep (seconds : Nat)
  | run (name : String) (args : List String)
  deriving DecidableEq

/-- The outside world.  Every answer may depend on the events so far.  For
calls that return only an `error`, `none` is `nil`; `usage` is `none` when
`disk.Usage` fails (its error is discarded by the source and the result is a
nil pointer).  `int32OutOfRange` is the platform: the `int32` a conversion
yields where the Go specification leaves it to the implementation. -/
structure Env where
  getEc2Client : List Event → Option ExtError
  getInstanceID : List Event → Except ExtError String
  partitions : List Event → Except ExtError (List PartitionStat)
  scanDevice : List Event → String → Except ExtError String
  describeVolumes : List Event → String → String → Except ExtError (List Volume)
  usage : List Event → String → Option UsageStat
  modifyVolume : List Event → String → Int → Option ExtError
  describeVolumesModifications : List Event → String → Except ExtError (List String)
  run : List Event → String → List String → Option ExtError
  int32OutOfRange : Nat → ℚ → Int

/-- How a call ends: it returns a value (`ok`; for a function returning only
`error` this is `nil`), returns a non-nil `error`, panics, or is still
running when the fuel is used up. -/
inductive Outcome (α : Type) where
  | ok (a : α)
  | err (e : GoError)
  | panic (msg : String)
  | unfinished
  deriving DecidableEq

/-- How `ResizeDisk` ends: it returns, `log.Fatalln` ends the process, a panic
ends the process, or it is still running when the fuel is used up. -/
inductive Exit where
  | returned
  | fatal (e : GoError)
  | panic (msg : String)
  | unfinished
  deriving DecidableEq

/-! ## String helpers of the Go standard library -/

/-- Go `strings.Contains(s, sub)` on character lists. -/
def stringsContains : List Char → List Char → Bool
  | [], sub => sub.isEmpty
  | c :: cs, sub => sub.isPrefixOf (c :: cs) || stringsContains cs sub

/-- Go `strings.Replace(s, old, new, 1)` for a non-empty `old`: the first
occurrence is replaced. -/
def stringsReplaceFirst : List Char → List Char → List Char → List Char
  | [], _, _ => []
  | c :: cs, old, new =>
    if old.isPrefixOf (c :: cs) then new ++ (c :: cs).drop old.length
    else c :: stringsReplaceFirst cs old new

/-- Go `strings.LastIndex(s, string(c))`: `none` is `-1`. -/
def stringsLastIndex (c : Char) : List Char → Option Nat
  | [] => none
  | x :: xs =>
    match stringsLastIndex c xs with
    | some i => some (i + 1)
    | none => if x = c then some 0 else none

/-- The matcher `regexp.MustCompile("^/dev/+[a-zA-Z]+$").MatchString`. -/
def isLetter (s : List Char) : Bool :=
  "/dev/".toList.isPrefixOf s &&
    !((s.drop 5).dropWhile (fun c => c == '/')).isEmpty &&
    ((s.drop 5).dropWhile (fun c => c == '/')).all Char.isAlpha

/-- The call `regexp.MustCompile("\\D+").FindString(s)`: the leftmost longest run of
non-digits, empty when there is none. -/
def findNonDigits (s : List Char) : List Char :=
  (s.dropWhile Char.isDigit).takeWhile (fun c => !c.isDigit)

/-! ## The functions of `ebs.go` -/

/-- The source function `waitForEbsResize(volumeID string) error`. -/
def waitForEbsResize (env : Env) : Nat → String → List Event → Outcome Unit × List Event
  | 0, _, t => (.unfinished, t)
  | fuel + 1, volumeID, t =>
    match env.getEc2Client t with
    | some e => (.err (.ext e), t ++ [.getEc2Client])
    | none =>
      match env.describeVolumesModifications (t ++ [.getEc2Client]) volumeID with
      | .error e =>
        (.err (.ext e), t ++ [.getEc2Client, .describeVolumesModifications volumeID])
      | .ok [] =>
        (.panic "index out of range [0] with length 0",
          t ++ [.getEc2Client, .describeVolumesModifications volumeID])
      | .ok (state :: _) =>
        if state = "modifying" then
          waitForEbsResize env fuel volumeID
            (t ++ [.getEc2Client, .describeVolumesModifications volumeID,
              .log "Ebs modification in progress. Waiting for 15 second", .sleep 15])
        else (.ok (), t ++ [.getEc2Client, .describeVolumesModifications volumeID])

/-- The body of the `for _, p := range parts` loop of `filterDisks`, iterated;
`acc` is the slice `diskData` built so far. -/
def filterDisksLoop (env : Env) (instanceID : String) :
    List PartitionStat → List DiskData → List Event → Outcome (List DiskData) × List Event
  | [], acc, t => (.ok acc, t)
  | p :: ps, acc, t =>
    let resolved : Except ExtError String × List Event :=
      if stringsContains p.Device.toList "nvme".toList then
        (env.scanDevice t p.Device, t ++ [.scanDevice p.Device])
      else
        (.ok (String.mk (stringsReplaceFirst p.Device.toList "xvd".toList "sd".toList)), t)
    match resolved with
    | (.error e, t1) => (.err (.ext e), t1)
    | (.ok ebsDevice, t1) =>
      match env.describeVolumes t1 ebsDevice instanceID with
      | .error e => (.err (.ext e), t1 ++ [.describeVolumes ebsDevice instanceID])
      | .ok volumes =>
        let t2 := t1 ++ [.describeVolumes ebsDevice instanceID, .usage p.Mountpoint]
        match volumes with
        | [] => (.panic "index out of range [0] with length 0", t2)
        | v :: _ =>
          match v.VolumeId, env.usage (t1 ++ [.describeVolumes ebsDevice instanceID]) p.Mountpoint with
          | none, _ => (.panic "invalid memory address or nil pointer dereference", t2)
          | some _, none => (.panic "invalid memory address or nil pointer dereference", t2)
          | some id, some usage =>
            filterDisksLoop env instanceID ps
              (acc ++ [{ VolumeID := id, DeviceName := p.Device, MountPoint := p.Mountpoint,
                         TotalUsed := usage.UsedPercent, TotalSpace := usage.Total,
                         VolumeSize := v.Size, FsType := p.Fstype }]) t2

/-- The source function `filterDisks() ([]DiskData, error)`. -/
def filterDisks (env : Env) (t : List Event) : Outcome (List DiskData) × List Event :=
  match env.partitions t with
  | .error e => (.err (.ext e), t ++ [.partitions])
  | .ok parts =>
    match env.getEc2Client (t ++ [.partitions]) with
    | some e => (.err (.ext e), t ++ [.partitions, .getEc2Client])
    | none =>
      match env.getInstanceID (t ++ [.partitions, .getEc2Client]) with
      | .error e => (.err (.ext e), t ++ [.partitions, .getEc2Client, .getInstanceID])
      | .ok instanceID =>
        filterDisksLoop env instanceID parts []
          (t ++ [.partitions, .getEc2Client, .getInstanceID])

/-- The source function `ebsResize(newSize int32, volumeID string) error`. -/
def ebsResize (env : Env) (fuel : Nat) (newSize : Int) (volumeID : String) (t : List Event) :
    Outcome Unit × List Event :=
  match env.getEc2Client t with
  | some e => (.err (.ext e), t ++ [.getEc2Client])
  | none =>
    let t1 := t ++ [.getEc2Client, .log ("Starting resize of ebs volume " ++ volumeID)]
    let t2 := t1 ++ [.modifyVolume volumeID newSize]
    match env.modifyVolume t1 volumeID newSize with
    | some (.api code message) =>
      if code = "VolumeModificationRateExceeded" then
        (.err .volumeRetryLater,
          t2 ++ [.log "Ebs was already resized, wait for 6 hours before next resize"])
      else if code = "IncorrectModificationState" then
        (.err .volumeRetryLater, t2 ++ [.log message])
      else waitForEbsResize env fuel volumeID t2
    | some (.other text) => (.err (.ext (.other text)), t2)
    | none => waitForEbsResize env fuel volumeID t2

/-- The method `(*exec.Cmd).Run` on `exec.Command(name, args...)`. -/
def cmdRun (env : Env) (name : String) (args : List String) (t : List Event) :
    Outcome Unit × List Event :=
  match env.run t name args with
  | some e => (.err (.ext e), t ++ [.run name args])
  | none => (.ok (), t ++ [.run name args])

/-- The source function `fsResize(filesystem, mountPoint, partition string) error`. -/
def fsResize (env : Env) (filesystem mountPoint partition : String) (t : List Event) :
    Outcome Unit × List Event :=
  if filesystem = "xfs" then
    cmdRun env "xfs_growfs" ["-d", mountPoint]
      (t ++ [.log ("Starting system volume resize for " ++ partition)])
  else
    cmdRun env "resize2fs" [partition]
      (t ++ [.log ("Starting system volume resize for " ++ partition)])

/-- The source function `growPartition(partition string) error`. -/
def growPartition (env : Env) (partition : String) (t : List Event) :
    Outcome Unit × List Event :=
  if isLetter partition.toList then
    (.ok (), t ++ [.log ("Starting growpart for " ++ partition),
      .log ("Grow partition for " ++ partition ++ " not required")])
  else
    match stringsLastIndex 'p' partition.toList with
    | some i =>
      cmdRun env "growpart"
        [String.mk (partition.toList.take i), String.mk (partition.toList.drop (i + 1))]
        (t ++ [.log ("Starting growpart for " ++ partition)])
    | none =>
      if stringsContains partition.toList "xvd".toList then
        cmdRun env "growpart"
          [String.mk (findNonDigits partition.toList),
           String.mk (partition.toList.drop (findNonDigits partition.toList).length)]
          (t ++ [.log ("Starting growpart for " ++ partition)])
      else (.ok (), t ++ [.log ("Starting growpart for " ++ partition)])

/-- The size `ResizeDisk` hands to `ebsResize` for a disk:
`int32(findNewSize(disk.TotalSpace, increasePercent))`. -/
def requestedSize (env : Env) (increasePercent : ℚ) (disk : DiskData) : Int :=
  (findNewSize disk.TotalSpace increasePercent).getD
    (env.int32OutOfRange disk.TotalSpace increasePercent)

/-- The `for _, disk := range disksInfo` loop of `ResizeDisk`. -/
def resizeLoop (env : Env) (fuel : Nat) (increasePercent freeSpaceThreshold : ℚ) :
    List DiskData → List Event → Exit × List Event
  | [], t => (.returned, t)
  | disk :: disks, t =>
    if disk.TotalUsed < freeSpaceThreshold then
      resizeLoop env fuel increasePercent freeSpaceThreshold disks
        (t ++ [.log ("Resize for " ++ disk.DeviceName ++ " not required")])
    else
      match ebsResize env fuel (requestedSize env increasePercent disk) disk.VolumeID
          (t ++ [.log ("Starting resize of " ++ disk.DeviceName)]) with
      | (.err .volumeRetryLater, t1) =>
        resizeLoop env fuel increasePercent freeSpaceThreshold disks t1
      | (.err e, t1) => (.fatal e, t1 ++ [.fatal e])
      | (.panic msg, t1) => (.panic msg, t1)
      | (.unfinished, t1) => (.unfinished, t1)
      | (.ok (), t1) =>
        match growPartition env disk.DeviceName t1 with
        | (.err e, t2) => (.fatal e, t2 ++ [.fatal e])
        | (.panic msg, t2) => (.panic msg, t2)
        | (.unfinished, t2) => (.unfinished, t2)
        | (.ok (), t2) =>
          match fsResize env disk.FsType disk.MountPoint disk.DeviceName t2 with
          | (.err e, t3) => (.fatal e, t3 ++ [.fatal e])
          | (.panic msg, t3) => (.panic msg, t3)
          | (.unfinished, t3) => (.unfinished, t3)
          | (.ok (), t3) => resizeLoop env fuel increasePercent freeSpaceThreshold disks t3

/-- The source function `ResizeDisk(increasePercent float64, freeSpaceThreshold float64)`. -/
def ResizeDisk (env : Env) (fuel : Nat) (increasePercent freeSpaceThreshold : ℚ)
    (t : List Event) : Exit × List Event :=
  match filterDisks env t with
  | (.err e, t1) => (.fatal e, t1 ++ [.fatal e])
  | (.panic msg, t1) => (.panic msg, t1)
  | (.unfinished, t1) => (.unfinished, t1)
  | (.ok disksInfo, t1) => resizeLoop env fuel increasePercent freeSpaceThreshold disksInfo t1

/-! ## Sample worlds and the expected shape of traces -/

/-- A world in which every call succeeds: one ext4 partition `/dev/xvdf1`
mounted on `/data`, 92 % full, backed by the 100 GiB volume `vol-0a1`, whose
latest modification is reported as `completed`. -/
def envOk : Env where
  getEc2Client := fun _ => none
  getInstanceID := fun _ => .ok "i-0123"
  partitions := fun _ => .ok [{ Device := "/dev/xvdf1", Mountpoint := "/data", Fstype := "ext4" }]
  scanDevice := fun _ d => .ok d
  describeVolumes := fun _ _ _ => .ok [{ VolumeId := some "vol-0a1", Size := 100 }]
  usage := fun _ _ => some { UsedPercent := 92, Total := 107374182400 }
  modifyVolume := fun _ _ _ => none
  describeVolumesModifications := fun _ _ => .ok ["completed"]
  run := fun _ _ _ => none
  int32OutOfRange := fun _ _ => 0

/-- As `envOk`, but EC2 rejects every modify-volume request with the API error
code `UnauthorizedOperation`. -/
def envUnauthorized : Env :=
  { envOk with
    modifyVolume := fun _ _ _ =>
      some (.api "UnauthorizedOperation" "You are not authorized to perform this operation.") }

/-- As `envOk`, but EC2 rejects the modify-volume request for `vol-0a1` with
the API error code `VolumeModificationRateExceeded` and the request for any
other volume with the code `IncorrectModificationState`. -/
def envDeferred : Env :=
  { envOk with
    modifyVolume := fun _ volumeID _ =>
      if volumeID = "vol-0a1" then
        some (.api "VolumeModificationRateExceeded"
          "You've reached the maximum modification rate.")
      else
        some (.api "IncorrectModificationState"
          "Volume is not in a modifiable state.") }

/-- As `envOk`, but the volume lookup succeeds with no matching volume. -/
def envNoVolume : Env :=
  { envOk with describeVolumes := fun _ _ _ => .ok [] }

/-- As `envOk`, but the modification is reported as `modifying` until the
program has slept twice. -/
def envSlow : Env :=
  { envOk with
    describeVolumesModifications := fun t _ =>
      if t.count (.sleep 15) < 2 then .ok ["modifying"] else .ok ["completed"] }

/-- The record `filterDisks` builds in `envOk`. -/
def diskFull : DiskData where
  VolumeID := "vol-0a1"
  DeviceName := "/dev/xvdf1"
  MountPoint := "/data"
  TotalUsed := 92
  TotalSpace := 107374182400
  FsType := "ext4"
  VolumeSize := 100

/-- A record whose filesystem capacity (50 GiB) is half the size of its
100 GiB volume. -/
def diskHalf : DiskData :=
  { diskFull with TotalSpace := 53687091200 }

/-- A record of a second disk, 95 % full, on the volume `vol-0b2`. -/
def diskSecond : DiskData :=
  { diskFull with
    VolumeID := "vol-0b2", TotalUsed := 95, DeviceName := "/dev/xvdg1", MountPoint := "/logs" }

/-- A record of a disk that is 10 % full. -/
def diskLow : DiskData :=
  { diskFull with TotalUsed := 10, DeviceName := "/dev/xvdg1", MountPoint := "/scratch" }

/-- The events of `k` polling rounds of `waitForEbsResize` that each found the
state `modifying`. -/
def modifyingRounds (volumeID : String) : Nat → List Event
  | 0 => []
  | k + 1 =>
    [.getEc2Client, .describeVolumesModifications volumeID,
      .log "Ebs modification in progress. Waiting for 15 second", .sleep 15]
      ++ modifyingRounds volumeID k

/-! ## Facts about the binary64 model -/

theorem pow2_eq (e : Int) : pow2 e = (2 : ℚ) ^ e := by
  unfold pow2
  split
  · next h =>
    obtain ⟨n, rfl⟩ := Int.eq_ofNat_of_zero_le h
    simp
  · next h =>
    have h' : 0 ≤ -e := by omega
    obtain ⟨n, hn⟩ := Int.eq_ofNat_of_zero_le h'
    have he : e = -(n : Int) := by omega
    subst he
    simp

theorem pow2_pos (e : Int) : 0 < pow2 e := by
  rw [pow2_eq]; positivity

theorem ilog2Aux_spec (fuel : Nat) : ∀ n : Nat, n ≤ fuel → n ≠ 0 →
    2 ^ ilog2Aux fuel n ≤ n ∧ n < 2 ^ (ilog2Aux fuel n + 1) := by
  induction fuel with
  | zero => intro n h0 h1; omega
  | succ f ih =>
    intro n hle hne
    unfold ilog2Aux
    split
    · next h2 => simp; omega
    · next h2 =>
      have hdiv : n / 2 ≤ f := by omega
      have hne2 : n / 2 ≠ 0 := by omega
      obtain ⟨h3, h4⟩ := ih (n / 2) hdiv hne2
      rw [pow_succ] at h4
      constructor
      · rw [pow_succ]; omega
      · rw [pow_succ, pow_succ]; omega

theorem ilog2_spec (n : Nat) (hn : n ≠ 0) :
    2 ^ ilog2 n ≤ n ∧ n < 2 ^ (ilog2 n + 1) :=
  ilog2Aux_spec n n (le_refl n) hn

theorem abs_eq_natAbs_div_den (x : ℚ) : |x| = (x.num.natAbs : ℚ) / (x.den : ℚ) := by
  have h := Rat.num_div_den x
  have hd : (0 : ℚ) < x.den := by exact_mod_cast x.den_pos
  conv_lhs => rw [← h]
  rw [abs_div, abs_of_pos hd]
  congr 1
  rw [Nat.cast_natAbs, Int.cast_abs]

/-- The exponent chosen by `binade` is the floor of the binary logarithm. -/
theorem binade_spec (x : ℚ) (hx : x ≠ 0) :
    (2 : ℚ) ^ binade x ≤ |x| ∧ |x| < (2 : ℚ) ^ (binade x + 1) := by
  have hn0 : x.num.natAbs ≠ 0 := by
    simpa [Int.natAbs_eq_zero] using hx
  have hd0 : x.den ≠ 0 := x.den_nz
  obtain ⟨hn1, hn2⟩ := ilog2_spec _ hn0
  obtain ⟨hd1, hd2⟩ := ilog2_spec _ hd0
  have hdpos : (0 : ℚ) < x.den := by exact_mod_cast x.den_pos
  have habs := abs_eq_natAbs_div_den x
  have hn1q : (2 : ℚ) ^ ilog2 x.num.natAbs ≤ (x.num.natAbs : ℚ) := by exact_mod_cast hn1
  have hn2q : (x.num.natAbs : ℚ) < (2 : ℚ) ^ (ilog2 x.num.natAbs + 1) := by exact_mod_cast hn2
  have hd1q : (2 : ℚ) ^ ilog2 x.den ≤ (x.den : ℚ) := by exact_mod_cast hd1
  have hd2q : (x.den : ℚ) < (2 : ℚ) ^ (ilog2 x.den + 1) := by exact_mod_cast hd2
  have two_ne : (2 : ℚ) ≠ 0 := by norm_num
  -- lower: 2 ^ (k - 1) ≤ |x|, upper: |x| < 2 ^ (k + 1)
  have hlow : (2 : ℚ) ^ ((ilog2 x.num.natAbs : Int) - (ilog2 x.den : Int) - 1) ≤ |x| := by
    rw [habs, le_div_iff₀ hdpos]
    have e1 : (2 : ℚ) ^ ((ilog2 x.num.natAbs : Int) - (ilog2 x.den : Int) - 1)
        = (2 : ℚ) ^ ilog2 x.num.natAbs / (2 : ℚ) ^ (ilog2 x.den + 1) := by
      rw [← zpow_natCast, ← zpow_natCast, ← zpow_sub₀ two_ne]
      congr 1; push_cast; ring
    rw [e1, div_mul_eq_mul_div, div_le_iff₀ (by positivity)]
    have : (2 : ℚ) ^ ilog2 x.num.natAbs * (x.den : ℚ)
        ≤ (x.num.natAbs : ℚ) * (2 : ℚ) ^ (ilog2 x.den + 1) := by
      apply mul_le_mul hn1q hd2q.le hdpos.le
      exact Nat.cast_nonneg _
    exact this
  have hup : |x| < (2 : ℚ) ^ ((ilog2 x.num.natAbs : Int) - (ilog2 x.den : Int) + 1) := by
    rw [habs, div_lt_iff₀ hdpos]
    have e1 : (2 : ℚ) ^ ((ilog2 x.num.natAbs : Int) - (ilog2 x.den : Int) + 1)
        = (2 : ℚ) ^ (ilog2 x.num.natAbs + 1) / (2 : ℚ) ^ ilog2 x.den := by
      rw [← zpow_natCast, ← zpow_natCast, ← zpow_sub₀ two_ne]
      congr 1; push_cast; ring
    rw [e1, div_mul_eq_mul_div, lt_div_iff₀ (by positivity)]
    have h2pos : (0 : ℚ) < (2 : ℚ) ^ ilog2 x.den := by positivity
    calc (x.num.natAbs : ℚ) * (2 : ℚ) ^ ilog2 x.den
        < (2 : ℚ) ^ (ilog2 x.num.natAbs + 1) * (2 : ℚ) ^ ilog2 x.den :=
          mul_lt_mul_of_pos_right hn2q h2pos
      _ ≤ (2 : ℚ) ^ (ilog2 x.num.natAbs + 1) * (x.den : ℚ) :=
          mul_le_mul_of_nonneg_left hd1q (by positivity)
  unfold binade
  simp only [pow2_eq]
  split
  · next h => exact ⟨h, hup⟩
  · next h =>
    refine ⟨hlow, ?_⟩
    have := lt_of_not_le h
    simpa using this

theorem roundHalfEven_intCast (z : Int) : roundHalfEven (z : ℚ) = z := by
  unfold roundHalfEven
  simp

theorem roundHalfEven_near (q : ℚ) : |((roundHalfEven q : Int) : ℚ) - q| ≤ 1 / 2 := by
  unfold roundHalfEven
  have h1 : ((⌊q⌋ : Int) : ℚ) ≤ q := Int.floor_le q
  have h2 : q < ((⌊q⌋ : Int) : ℚ) + 1 := Int.lt_floor_add_one q
  rw [abs_le]
  simp only
  split
  · next h => constructor <;> linarith
  · next h =>
    split
    · next h' => push_cast; constructor <;> linarith
    · next h' =>
      have hr : q - ((⌊q⌋ : Int) : ℚ) = 1 / 2 := le_antisymm (not_lt.mp h') (not_lt.mp h)
      split
      · constructor <;> linarith
      · push_cast; constructor <;> linarith

theorem roundHalfEven_scaled (x : ℚ) (m j e : Int) (hx : x = (m : ℚ) * (2 : ℚ) ^ j)
    (he : e ≤ j) : ((roundHalfEven (x / pow2 e) : Int) : ℚ) * pow2 e = x := by
  have two_ne : (2 : ℚ) ≠ 0 := by norm_num
  obtain ⟨n, hn⟩ := Int.eq_ofNat_of_zero_le (sub_nonneg.mpr he)
  have hq : x / pow2 e = (((m * 2 ^ n : Int)) : ℚ) := by
    rw [pow2_eq, hx, mul_div_assoc, ← zpow_sub₀ two_ne, hn]
    push_cast
    rw [zpow_natCast]
  rw [hq, roundHalfEven_intCast, ← hq]
  exact div_mul_cancel₀ _ (ne_of_gt (pow2_pos _))

/-- A rational `m * 2 ^ j` with a mantissa of at most 53 bits and an exponent
in the binary64 range is a `float64` value: rounding returns it unchanged. -/
theorem roundF64_exact (x : ℚ) (m j : Int) (hx : x = (m : ℚ) * (2 : ℚ) ^ j)
    (hm : |m| < 2 ^ 53) (hj : -1074 ≤ j) (hbig : |x| < (2 : ℚ) ^ (1024 : Int)) :
    roundF64 x = some x := by
  unfold roundF64
  split
  · next h0 => rw [h0]
  · next h0 =>
    have two_ne : (2 : ℚ) ≠ 0 := by norm_num
    obtain ⟨hb, -⟩ := binade_spec x h0
    have hmq : |(m : ℚ)| < (2 : ℚ) ^ (53 : Int) := by
      have : ((|m| : Int) : ℚ) < ((2 ^ 53 : Int) : ℚ) := by exact_mod_cast hm
      rw [Int.cast_abs] at this
      calc |(m : ℚ)| < ((2 ^ 53 : Int) : ℚ) := this
        _ = (2 : ℚ) ^ (53 : Int) := by norm_num
    have hxlt : |x| < (2 : ℚ) ^ (53 + j) := by
      rw [hx, abs_mul, abs_of_pos (by positivity : (0 : ℚ) < (2 : ℚ) ^ j), zpow_add₀ two_ne]
      exact mul_lt_mul_of_pos_right hmq (by positivity)
    have hbin : binade x < 53 + j := by
      have := lt_of_le_of_lt hb hxlt
      exact (zpow_lt_zpow_iff_right₀ (by norm_num : (1 : ℚ) < 2)).mp this
    have he : max (binade x) (-1022) - 52 ≤ j := by
      rcases max_cases (binade x) (-1022) with ⟨h, -⟩ | ⟨h, -⟩ <;> rw [h] <;> omega
    have hy := roundHalfEven_scaled x m j _ hx he
    simp only [hy]
    rw [pow2_eq 1024, if_pos hbig]

/-- Rounding moves an exact result below `2 ^ (E + 1)` by at most half a unit
in the last place of the binade `E`, and does not overflow. -/
theorem roundF64_near (x : ℚ) (E : Int) (hlo : -1022 ≤ E) (hhi : E ≤ 1022)
    (hx : |x| < (2 : ℚ) ^ (E + 1)) :
    ∃ y, roundF64 x = some y ∧ |y - x| ≤ (2 : ℚ) ^ (E - 53) := by
  unfold roundF64
  split
  · next h0 =>
    refine ⟨0, rfl, ?_⟩
    rw [h0]; simp; positivity
  · next h0 =>
    have two_ne : (2 : ℚ) ≠ 0 := by norm_num
    have one_lt : (1 : ℚ) < 2 := by norm_num
    obtain ⟨hb, -⟩ := binade_spec x h0
    have hbin : binade x < E + 1 :=
      (zpow_lt_zpow_iff_right₀ one_lt).mp (lt_of_le_of_lt hb hx)
    have he : max (binade x) (-1022) ≤ E := by
      rcases max_cases (binade x) (-1022) with ⟨h, -⟩ | ⟨h, -⟩ <;> rw [h] <;> omega
    generalize max (binade x) (-1022) = e at he
    have hu : 0 < pow2 (e - 52) := pow2_pos _
    have hr := roundHalfEven_near (x / pow2 (e - 52))
    have hdiff : |((roundHalfEven (x / pow2 (e - 52)) : Int) : ℚ) * pow2 (e - 52) - x|
        ≤ (2 : ℚ) ^ (E - 53) := by
      have e1 : ((roundHalfEven (x / pow2 (e - 52)) : Int) : ℚ) * pow2 (e - 52) - x
          = (((roundHalfEven (x / pow2 (e - 52)) : Int) : ℚ) - x / pow2 (e - 52))
            * pow2 (e - 52) := by
        field_simp
      rw [e1, abs_mul, abs_of_pos hu]
      have e2 : (2 : ℚ) ^ (E - 53) = (1 / 2) * (2 : ℚ) ^ (E - 52) := by
        rw [show E - 53 = (E - 52) + (-1) by ring, zpow_add₀ two_ne]
        norm_num; ring
      rw [e2]
      apply mul_le_mul hr _ hu.le (by norm_num)
      rw [pow2_eq]
      exact (zpow_le_zpow_iff_right₀ one_lt).mpr (by omega)
    have hsmall : |((roundHalfEven (x / pow2 (e - 52)) : Int) : ℚ) * pow2 (e - 52)|
        < pow2 1024 := by
      rw [pow2_eq 1024]
      have h1 : |((roundHalfEven (x / pow2 (e - 52)) : Int) : ℚ) * pow2 (e - 52)|
          ≤ |x| + (2 : ℚ) ^ (E - 53) := by
        have := abs_sub_abs_le_abs_sub
          (((roundHalfEven (x / pow2 (e - 52)) : Int) : ℚ) * pow2 (e - 52)) x
        linarith
      have h2 : (2 : ℚ) ^ (E - 53) ≤ (2 : ℚ) ^ (E + 1) :=
        (zpow_le_zpow_iff_right₀ one_lt).mpr (by omega)
      have h3 : (2 : ℚ) ^ (E + 2) = (2 : ℚ) ^ (E + 1) * 2 := by
        rw [show E + 2 = (E + 1) + 1 by ring]
        exact zpow_add_one₀ two_ne _
      have h4 : (2 : ℚ) ^ (E + 2) ≤ (2 : ℚ) ^ (1024 : Int) :=
        (zpow_le_zpow_iff_right₀ one_lt).mpr (by omega)
      linarith
    simp only
    rw [if_pos hsmall]
    exact ⟨_, rfl, hdiff⟩

/-- Naturals below `2 ^ 53` are `float64` values. -/
theorem roundF64_natCast (n : Nat) (hn : n < 2 ^ 53) : roundF64 (n : ℚ) = some (n : ℚ) := by
  apply roundF64_exact (n : ℚ) (n : Int) 0
  · simp
  · rw [abs_of_nonneg (Int.natCast_nonneg n)]
    exact_mod_cast hn
  · norm_num
  · rw [abs_of_nonneg (Nat.cast_nonneg n)]
    have h1 : (n : ℚ) < ((2 ^ 53 : Nat) : ℚ) := by exact_mod_cast hn
    have h2 : (((2 ^ 53 : Nat)) : ℚ) ≤ (2 : ℚ) ^ (1024 : Int) := by norm_num
    linarith

/-- A `uint64` byte count that is a whole number of GiB converts exactly. -/
theorem roundF64_gib (g : Nat) (hg : g * 2 ^ 30 < 2 ^ 64) :
    roundF64 ((g * 2 ^ 30 : Nat) : ℚ) = some ((g : ℚ) * 1073741824) := by
  have hg' : g < 2 ^ 34 := by omega
  have hx : ((g * 2 ^ 30 : Nat) : ℚ) = (g : ℚ) * 1073741824 := by push_cast; norm_num
  rw [hx]
  apply roundF64_exact ((g : ℚ) * 1073741824) (g : Int) 30
  · norm_num
  · rw [abs_of_nonneg (Int.natCast_nonneg g)]
    have : g < 2 ^ 53 := by omega
    exact_mod_cast this
  · norm_num
  · rw [abs_of_nonneg (by positivity)]
    have h1 : (g : ℚ) < ((2 ^ 34 : Nat) : ℚ) := by exact_mod_cast hg'
    have h2 : (((2 ^ 34 : Nat)) : ℚ) * 1073741824 ≤ (2 : ℚ) ^ (1024 : Int) := by norm_num
    nlinarith

theorem toInt32_of_mem_Ico (v : ℚ) (n : Nat) (hn : n < 2 ^ 31) (h1 : (n : ℚ) ≤ v)
    (h2 : v < (n : ℚ) + 1) : toInt32 v = some (n : Int) := by
  have h0 : (0 : ℚ) ≤ v := le_trans (Nat.cast_nonneg n) h1
  have hf : ⌊v⌋ = (n : Int) := by
    rw [Int.floor_eq_iff]
    exact ⟨by exact_mod_cast h1, by exact_mod_cast h2⟩
  unfold toInt32
  simp only [if_pos h0, hf]
  rw [if_pos]
  constructor <;> omega

/-- The binary64 computation of `findNewSize` on a whole number `g` of GiB and
an integral percentage `p` agrees with exact floor arithmetic whenever the
exact result fits in an `int32`. -/
theorem findNewSize_gib (g p : Nat) (hg : g * 2 ^ 30 < 2 ^ 64)
    (hfit : g + g * p / 100 < 2 ^ 31) :
    findNewSize (g * 2 ^ 30) (p : ℚ) = some ((g + g * p / 100 : Nat) : Int) := by
  have hg53 : g < 2 ^ 53 := by omega
  have hN : g * p < 2 ^ 53 := by
    rcases Nat.eq_zero_or_pos g with h | h
    · simp [h]
    · have : g * p / 100 < 2 ^ 31 := by omega
      have := (Nat.div_lt_iff_lt_mul (by norm_num : 0 < 100)).mp this
      omega
  unfold findNewSize
  rw [roundF64_gib g hg, Option.some_bind]
  rw [show (g : ℚ) * 1073741824 / 1073741824 = (g : ℚ) by field_simp]
  rw [roundF64_natCast g hg53, Option.some_bind]
  rw [show (g : ℚ) * (p : ℚ) = ((g * p : Nat) : ℚ) by push_cast; ring]
  rw [roundF64_natCast _ hN, Option.some_bind]
  -- split the exact quotient into its integral and fractional parts
  have hdm := Nat.div_add_mod (g * p) 100
  have hmod : g * p % 100 < 100 := Nat.mod_lt _ (by norm_num)
  set q := g * p / 100 with hq
  set r := g * p % 100 with hr
  have hx1 : (((g * p : Nat)) : ℚ) / 100 = (q : ℚ) + (r : ℚ) / 100 := by
    have : ((g * p : Nat) : ℚ) = 100 * (q : ℚ) + (r : ℚ) := by exact_mod_cast hdm.symm
    rw [this]; field_simp; ring
  rcases Nat.eq_zero_or_pos r with hr0 | hrpos
  · -- the quotient is integral: every operation is exact
    have hx1' : (((g * p : Nat)) : ℚ) / 100 = (q : ℚ) := by rw [hx1, hr0]; simp
    rw [hx1', roundF64_natCast q (by omega), Option.some_bind]
    rw [show (q : ℚ) + (g : ℚ) = ((g + q : Nat) : ℚ) by push_cast; ring]
    rw [roundF64_natCast _ (by omega), Option.some_bind]
    exact toInt32_of_mem_Ico _ (g + q) hfit le_rfl (by linarith)
  · -- otherwise the two roundings stay strictly inside the unit interval
    have hrq1 : (1 : ℚ) ≤ (r : ℚ) := by exact_mod_cast hrpos
    have hrq2 : (r : ℚ) ≤ 99 := by
      have : r ≤ 99 := by omega
      exact_mod_cast this
    have hqg : ((g + q : Nat) : ℚ) + 1 ≤ 2147483648 := by
      have : g + q + 1 ≤ 2147483648 := by omega
      exact_mod_cast this
    have hq0 : (0 : ℚ) ≤ (q : ℚ) := Nat.cast_nonneg q
    have hg0 : (0 : ℚ) ≤ (g : ℚ) := Nat.cast_nonneg g
    have hqgc : ((g + q : Nat) : ℚ) = (g : ℚ) + (q : ℚ) := by push_cast; ring
    have hb1 : |(((g * p : Nat)) : ℚ) / 100| < (2 : ℚ) ^ ((30 : Int) + 1) := by
      rw [hx1, abs_of_nonneg (by positivity)]
      norm_num
      linarith
    obtain ⟨y1, hy1, hd1⟩ := roundF64_near _ 30 (by norm_num) (by norm_num) hb1
    rw [hy1, Option.some_bind]
    rw [hx1] at hd1
    have hd1' := abs_le.mp hd1
    have heps : (2 : ℚ) ^ ((30 : Int) - 53) = 1 / 8388608 := by norm_num
    rw [heps] at hd1'
    have hb2 : |y1 + (g : ℚ)| < (2 : ℚ) ^ ((30 : Int) + 1) := by
      rw [abs_lt]
      norm_num
      constructor <;> linarith [hd1'.1, hd1'.2]
    obtain ⟨y2, hy2, hd2⟩ := roundF64_near _ 30 (by norm_num) (by norm_num) hb2
    rw [hy2, Option.some_bind]
    have hd2' := abs_le.mp hd2
    rw [heps] at hd2'
    apply toInt32_of_mem_Ico _ (g + q) hfit
    · rw [hqgc]; linarith [hd1'.1, hd1'.2, hd2'.1, hd2'.2]
    · rw [hqgc]; linarith [hd1'.1, hd1'.2, hd2'.1, hd2'.2]

/-- The exact floor of `g + g * p / 100` is computed by natural-number division. -/
theorem floor_whole_gib (g p : Nat) :
    ⌊(g : ℚ) + (g : ℚ) * (p : ℚ) / 100⌋ = ((g + g * p / 100 : Nat) : Int) := by
  have hdm := Nat.div_add_mod (g * p) 100
  have hmod : g * p % 100 < 100 := Nat.mod_lt _ (by norm_num)
  generalize g * p / 100 = q at hdm
  generalize g * p % 100 = r at hdm hmod
  have e1 : (g : ℚ) * (p : ℚ) = 100 * (q : ℚ) + (r : ℚ) := by exact_mod_cast hdm.symm
  have h0 : (0 : ℚ) ≤ (r : ℚ) := Nat.cast_nonneg _
  have h1 : (r : ℚ) < 100 := by exact_mod_cast hmod
  rw [Int.floor_eq_iff, Int.cast_natCast, e1, Nat.cast_add]
  constructor
  · linarith
  · linarith

theorem isAlpha_of_isDigit (c : Char) (h : c.isDigit = true) : c.isAlpha = false := by
  simp only [Char.isDigit, Char.isAlpha, Char.isUpper, Char.isLower, Bool.and_eq_true,
    Bool.or_eq_false_iff, Bool.and_eq_false_iff, decide_eq_true_eq, decide_eq_false_iff_not,
    ge_iff_le, UInt32.le_def, BitVec.le_def] at *
  have e48 : (UInt32.toBitVec 48).toNat = 48 := rfl
  have e57 : (UInt32.toBitVec 57).toNat = 57 := rfl
  have e65 : (UInt32.toBitVec 65).toNat = 65 := rfl
  have e90 : (UInt32.toBitVec 90).toNat = 90 := rfl
  have e97 : (UInt32.toBitVec 97).toNat = 97 := rfl
  have e122 : (UInt32.toBitVec 122).toNat = 122 := rfl
  rw [e48, e57] at h
  rw [e65, e90, e97, e122]
  omega

/-! ## Device-path parsing -/

theorem stringsLastIndex_eq_none (c : Char) (s : List Char) (h : c ∉ s) :
    stringsLastIndex c s = none := by
  induction s with
  | nil => rfl
  | cons x xs ih =>
    have hx : x ≠ c := fun e => h (by simp [e])
    have hxs : c ∉ xs := fun e => h (by simp [e])
    simp [stringsLastIndex, ih hxs, hx]

theorem stringsLastIndex_append_cons (c : Char) (a b : List Char) (h : c ∉ b) :
    stringsLastIndex c (a ++ c :: b) = some a.length := by
  induction a with
  | nil => simp [stringsLastIndex, stringsLastIndex_eq_none c b h]
  | cons x xs ih => simp [stringsLastIndex, ih]

theorem isLetter_false_of_digit_end (s d : List Char) (c : Char) (hc : c.isDigit = true) :
    isLetter (s ++ d ++ [c]) = false := by
  unfold isLetter
  by_contra hne
  simp only [Bool.not_eq_false, Bool.and_eq_true, Bool.not_eq_true', List.all_eq_true] at hne
  obtain ⟨⟨-, hnonempty⟩, hall⟩ := hne
  have hsuf : ((s ++ d ++ [c]).drop 5).dropWhile (fun c => c == '/') <:+ (s ++ d ++ [c]) :=
    (List.dropWhile_suffix _).trans (List.drop_suffix _ _)
  generalize ((s ++ d ++ [c]).drop 5).dropWhile (fun c => c == '/') = rest at *
  have hrest : rest ≠ [] := by
    intro h; rw [h] at hnonempty; simp at hnonempty
  obtain ⟨pre, hpre⟩ := hsuf
  have hlast : c ∈ rest := by
    have h1 : (pre ++ rest).getLast? = some c := by rw [hpre]; simp
    rw [List.getLast?_append_of_ne_nil _ hrest] at h1
    exact List.mem_of_getLast?_eq_some h1
  have := hall c hlast
  rw [isAlpha_of_isDigit c hc] at this
  exact Bool.noConfusion this

theorem isLetter_dev_letters (l : List Char) (hne : l ≠ [])
    (hall : ∀ c ∈ l, c.isAlpha = true) :
    isLetter ('/' :: 'd' :: 'e' :: 'v' :: '/' :: l) = true := by
  obtain ⟨c, cs, rfl⟩ := List.exists_cons_of_ne_nil hne
  have hc : c.isAlpha = true := hall c (by simp)
  have hslash : (c == '/') = false := by
    rcases h : (c == '/') with _ | _
    · rfl
    · have : c = '/' := by simpa using h
      rw [this] at hc
      exact absurd hc (by decide)
  unfold isLetter
  simp only [List.drop_succ_cons, List.drop_zero]
  rw [List.dropWhile_cons_of_neg (by simp [hslash])]
  simp only [Bool.and_eq_true, List.all_eq_true]
  refine ⟨⟨by simp [String.toList, List.isPrefixOf], by simp⟩, hall⟩

/-! ## Traces only grow -/

theorem waitForEbsResize_extends (env : Env) (volumeID : String) :
    ∀ (fuel : Nat) (t : List Event), t <+: (waitForEbsResize env fuel volumeID t).2 := by
  intro fuel
  induction fuel with
  | zero => intro t; simp [waitForEbsResize]
  | succ n ih =>
    intro t
    unfold waitForEbsResize
    split
    · exact List.prefix_append _ _
    · split
      · exact List.prefix_append _ _
      · exact List.prefix_append _ _
      · split
        · exact (List.prefix_append _ _).trans (ih _)
        · exact List.prefix_append _ _

theorem ebsResize_extends (env : Env) (fuel : Nat) (newSize : Int) (volumeID : String)
    (t : List Event) : t <+: (ebsResize env fuel newSize volumeID t).2 := by
  unfold ebsResize
  split
  · exact List.prefix_append _ _
  · simp only
    split
    · split
      · simp only [List.append_assoc]; exact List.prefix_append _ _
      · split
        · simp only [List.append_assoc]; exact List.prefix_append _ _
        · refine List.IsPrefix.trans ?_ (waitForEbsResize_extends env volumeID fuel _)
          simp only [List.append_assoc]; exact List.prefix_append _ _
    · simp only [List.append_assoc]; exact List.prefix_append _ _
    · refine List.IsPrefix.trans ?_ (waitForEbsResize_extends env volumeID fuel _)
      simp only [List.append_assoc]; exact List.prefix_append _ _

/-- When the client is available, `ebsResize` issues the modify-volume request
for exactly the size and volume it was given. -/
theorem ebsResize_request_first (env : Env) (fuel : Nat) (newSize : Int) (volumeID : String)
    (t : List Event) (hcl : env.getEc2Client t = none) :
    t ++ [.getEc2Client, .log ("Starting resize of ebs volume " ++ volumeID),
        .modifyVolume volumeID newSize]
      <+: (ebsResize env fuel newSize volumeID t).2 := by
  have e : t ++ [.getEc2Client, .log ("Starting resize of ebs volume " ++ volumeID),
        .modifyVolume volumeID newSize]
      = t ++ [.getEc2Client, .log ("Starting resize of ebs volume " ++ volumeID)]
          ++ [.modifyVolume volumeID newSize] := by simp
  rw [e]
  unfold ebsResize
  rw [hcl]
  simp only
  split
  · split
    · exact List.prefix_append _ _
    · split
      · exact List.prefix_append _ _
      · exact waitForEbsResize_extends env volumeID fuel _
  · exact List.prefix_refl _
  · exact waitForEbsResize_extends env volumeID fuel _

theorem cmdRun_extends (env : Env) (name : String) (args : List String) (t : List Event) :
    t <+: (cmdRun env name args t).2 := by
  unfold cmdRun
  split <;> exact List.prefix_append _ _

theorem growPartition_extends (env : Env) (partition : String) (t : List Event) :
    t <+: (growPartition env partition t).2 := by
  unfold growPartition
  split
  · exact List.prefix_append _ _
  · split
    · exact (List.prefix_append _ _).trans (cmdRun_extends _ _ _ _)
    · split
      · exact (List.prefix_append _ _).trans (cmdRun_extends _ _ _ _)
      · exact List.prefix_append _ _

theorem fsResize_extends (env : Env) (filesystem mountPoint partition : String)
    (t : List Event) : t <+: (fsResize env filesystem mountPoint partition t).2 := by
  unfold fsResize
  split <;> exact (List.prefix_append _ _).trans (cmdRun_extends _ _ _ _)

/-- Unfolding of one iteration of the loop for a disk at or over the threshold. -/
theorem resizeLoop_cons_over (env : Env) (fuel : Nat) (p thr : ℚ) (d : DiskData)
    (ds : List DiskData) (t : List Event) (h : ¬ d.TotalUsed < thr) :
    resizeLoop env fuel p thr (d :: ds) t =
      match ebsResize env fuel (requestedSize env p d) d.VolumeID
          (t ++ [.log ("Starting resize of " ++ d.DeviceName)]) with
      | (.err .volumeRetryLater, t1) => resizeLoop env fuel p thr ds t1
      | (.err e, t1) => (.fatal e, t1 ++ [.fatal e])
      | (.panic msg, t1) => (.panic msg, t1)
      | (.unfinished, t1) => (.unfinished, t1)
      | (.ok (), t1) =>
        match growPartition env d.DeviceName t1 with
        | (.err e, t2) => (.fatal e, t2 ++ [.fatal e])
        | (.panic msg, t2) => (.panic msg, t2)
        | (.unfinished, t2) => (.unfinished, t2)
        | (.ok (), t2) =>
          match fsResize env d.FsType d.MountPoint d.DeviceName t2 with
          | (.err e, t3) => (.fatal e, t3 ++ [.fatal e])
          | (.panic msg, t3) => (.panic msg, t3)
          | (.unfinished, t3) => (.unfinished, t3)
          | (.ok (), t3) => resizeLoop env fuel p thr ds t3 := by
  rw [resizeLoop, if_neg h]

theorem resizeLoop_extends (env : Env) (fuel : Nat) (p thr : ℚ) :
    ∀ (ds : List DiskData) (t : List Event), t <+: (resizeLoop env fuel p thr ds t).2 := by
  intro ds
  induction ds with
  | nil => intro t; simp [resizeLoop]
  | cons d ds ih =>
    intro t
    by_cases h : d.TotalUsed < thr
    · rw [resizeLoop, if_pos h]
      exact (List.prefix_append _ _).trans (ih _)
    · rw [resizeLoop_cons_over env fuel p thr d ds t h]
      have h1 := (List.prefix_append t [Event.log ("Starting resize of " ++ d.DeviceName)]).trans
        (ebsResize_extends env fuel (requestedSize env p d) d.VolumeID _)
      split
      · next heq => rw [heq] at h1; exact h1.trans (ih _)
      · next heq => rw [heq] at h1; exact h1.trans (List.prefix_append _ _)
      · next heq => rw [heq] at h1; exact h1
      · next heq => rw [heq] at h1; exact h1
      · next t1 heq =>
        rw [heq] at h1
        have h2 := h1.trans (growPartition_extends env d.DeviceName t1)
        split
        · next heq2 => rw [heq2] at h2; exact h2.trans (List.prefix_append _ _)
        · next heq2 => rw [heq2] at h2; exact h2
        · next heq2 => rw [heq2] at h2; exact h2
        · next t2 heq2 =>
          rw [heq2] at h2
          have h3 := h2.trans (fsResize_extends env d.FsType d.MountPoint d.DeviceName t2)
          split
          · next heq3 => rw [heq3] at h3; exact h3.trans (List.prefix_append _ _)
          · next heq3 => rw [heq3] at h3; exact h3
          · next heq3 => rw [heq3] at h3; exact h3
          · next heq3 => rw [heq3] at h3; exact h3.trans (ih _)

/-- The run over a concatenated list: the second part is processed exactly
when the first part returned, from the state the first part left. -/
theorem resizeLoop_append (env : Env) (fuel : Nat) (p thr : ℚ) (post : List DiskData) :
    ∀ (pre : List DiskData) (t : List Event),
      resizeLoop env fuel p thr (pre ++ post) t =
        if (resizeLoop env fuel p thr pre t).1 = .returned then
          resizeLoop env fuel p thr post (resizeLoop env fuel p thr pre t).2
        else resizeLoop env fuel p thr pre t := by
  intro pre
  induction pre with
  | nil => intro t; simp [resizeLoop]
  | cons d ds ih =>
    intro t
    by_cases h : d.TotalUsed < thr
    · rw [List.cons_append, resizeLoop, if_pos h, ih]
      conv_rhs => rw [resizeLoop, if_pos h]
    · rw [List.cons_append, resizeLoop_cons_over env fuel p thr d _ t h,
        resizeLoop_cons_over env fuel p thr d ds t h]
      split
      · exact ih _
      · simp
      · simp
      · simp
      · split
        · simp
        · simp
        · simp
        · split
          · simp
          · simp
          · simp
          · exact ih _

/-- For a disk at or over the threshold, everything its `ebsResize` call did is
part of the run. -/
theorem resizeLoop_cons_over_extends (env : Env) (fuel : Nat) (p thr : ℚ) (d : DiskData)
    (ds : List DiskData) (t : List Event) (h : ¬ d.TotalUsed < thr) :
    (ebsResize env fuel (requestedSize env p d) d.VolumeID
        (t ++ [.log ("Starting resize of " ++ d.DeviceName)])).2
      <+: (resizeLoop env fuel p thr (d :: ds) t).2 := by
  rw [resizeLoop_cons_over env fuel p thr d ds t h]
  split
  · next heq => rw [heq]; exact resizeLoop_extends env fuel p thr ds _
  · next heq => rw [heq]; exact List.prefix_append _ _
  · next heq => rw [heq]
  · next heq => rw [heq]
  · next t1 heq =>
    rw [heq]
    have h2 := growPartition_extends env d.DeviceName t1
    split
    · next heq2 => rw [heq2] at h2; exact h2.trans (List.prefix_append _ _)
    · next heq2 => rw [heq2] at h2; exact h2
    · next heq2 => rw [heq2] at h2; exact h2
    · next t2 heq2 =>
      rw [heq2] at h2
      have h3 := h2.trans (fsResize_extends env d.FsType d.MountPoint d.DeviceName t2)
      split
      · next heq3 => rw [heq3] at h3; exact h3.trans (List.prefix_append _ _)
      · next heq3 => rw [heq3] at h3; exact h3
      · next heq3 => rw [heq3] at h3; exact h3
      · next heq3 => rw [heq3] at h3; exact h3.trans (resizeLoop_extends env fuel p thr ds _)

/-- Polling rounds that find `modifying` consume one unit of fuel each. -/
theorem waitForEbsResize_skip (env : Env) (volumeID : String) (fuel : Nat) :
    ∀ (k : Nat) (t : List Event),
      (∀ i, i < k → env.getEc2Client (t ++ modifyingRounds volumeID i) = none) →
      (∀ i, i < k → ∃ rest, env.describeVolumesModifications
          (t ++ modifyingRounds volumeID i ++ [.getEc2Client]) volumeID
            = .ok ("modifying" :: rest)) →
      waitForEbsResize env (fuel + k) volumeID t
        = waitForEbsResize env fuel volumeID (t ++ modifyingRounds volumeID k) := by
  intro k
  induction k with
  | zero => intro t _ _; simp [modifyingRounds]
  | succ k ih =>
    intro t hcl hmod
    have c0 := hcl 0 (Nat.succ_pos k)
    obtain ⟨rest, m0⟩ := hmod 0 (Nat.succ_pos k)
    simp only [modifyingRounds, List.append_nil] at c0 m0
    rw [← Nat.add_assoc]
    rw [waitForEbsResize, c0]
    simp only
    rw [m0]
    simp only [if_true]
    rw [ih]
    · simp [modifyingRounds]
    · intro i hi
      have := hcl (i + 1) (Nat.succ_lt_succ hi)
      simpa [modifyingRounds] using this
    · intro i hi
      obtain ⟨r, hr⟩ := hmod (i + 1) (Nat.succ_lt_succ hi)
      exact ⟨r, by simpa [modifyingRounds] using hr⟩

theorem count_describe_modifyingRounds (volumeID : String) (k : Nat) :
    (modifyingRounds volumeID k).count (.describeVolumesModifications volumeID) = k := by
  induction k with
  | zero => rfl
  | succ k ih => simp [modifyingRounds, List.count_cons, ih]

theorem count_sleep_modifyingRounds (volumeID : String) (k : Nat) :
    (modifyingRounds volumeID k).count (.sleep 15) = k := by
  induction k with
  | zero => rfl
  | succ k ih => simp [modifyingRounds, List.count_cons, ih]

/-- The first thing `ebsResize` does is build the client. -/
theorem ebsResize_client_first (env : Env) (fuel : Nat) (newSize : Int) (volumeID : String)
    (t : List Event) : t ++ [.getEc2Client] <+: (ebsResize env fuel newSize volumeID t).2 := by
  unfold ebsResize
  split
  · exact List.prefix_refl _
  · have e : ∀ (a : List Event) (x y : Event), a ++ [x, y] = a ++ [x] ++ [y] := by
      intro a x y; simp
    simp only
    split
    · split
      · rw [e]; simp
      · split
        · rw [e]; simp
        · refine List.IsPrefix.trans ?_ (waitForEbsResize_extends env _ fuel _)
          rw [e]; simp
    · rw [e]; simp
    · refine List.IsPrefix.trans ?_ (waitForEbsResize_extends env _ fuel _)
      rw [e]; simp

/-! ## How far the three divergences reach -/

/-- Every API error code other than the two deferral codes makes `ebsResize`
continue into `waitForEbsResize`, as if the request had succeeded. -/
theorem ebsResize_other_api_code (env : Env) (fuel : Nat) (newSize : Int)
    (volumeID : String) (t : List Event) (code message : String)
    (hcl : env.getEc2Client t = none)
    (hmv : env.modifyVolume
        (t ++ [.getEc2Client, .log ("Starting resize of ebs volume " ++ volumeID)])
        volumeID newSize = some (.api code message))
    (h1 : code ≠ "VolumeModificationRateExceeded") (h2 : code ≠ "IncorrectModificationState") :
    ebsResize env fuel newSize volumeID t
      = waitForEbsResize env fuel volumeID
          (t ++ [.getEc2Client, .log ("Starting resize of ebs volume " ++ volumeID)]
            ++ [.modifyVolume volumeID newSize]) := by
  unfold ebsResize
  rw [hcl]
  simp only
  rw [hmv]
  simp [h1, h2]

/-- An error of the modify-volume request that is not an API error is returned. -/
theorem ebsResize_transport_error (env : Env) (fuel : Nat) (newSize : Int)
    (volumeID : String) (t : List Event) (text : String)
    (hcl : env.getEc2Client t = none)
    (hmv : env.modifyVolume
        (t ++ [.getEc2Client, .log ("Starting resize of ebs volume " ++ volumeID)])
        volumeID newSize = some (.other text)) :
    ebsResize env fuel newSize volumeID t
      = (.err (.ext (.other text)),
          t ++ [.getEc2Client, .log ("Starting resize of ebs volume " ++ volumeID)]
            ++ [.modifyVolume volumeID newSize]) := by
  unfold ebsResize
  rw [hcl]
  simp only
  rw [hmv]

/-- Whatever was collected before, a partition whose lookup succeeds with zero
volumes makes the scan panic. -/
theorem filterDisksLoop_no_volume (env : Env) (instanceID : String) (p : PartitionStat)
    (ps : List PartitionStat) (acc : List DiskData) (t : List Event)
    (hdev : stringsContains p.Device.toList "nvme".toList = false)
    (hvol : env.describeVolumes t
        (String.mk (stringsReplaceFirst p.Device.toList "xvd".toList "sd".toList))
        instanceID = .ok []) :
    (filterDisksLoop env instanceID (p :: ps) acc t).1
      = .panic "index out of range [0] with length 0" := by
  unfold filterDisksLoop
  simp only [hdev, Bool.false_eq_true, if_false]
  rw [hvol]

theorem isDigit_of_isAlpha (c : Char) (h : c.isAlpha = true) : c.isDigit = false := by
  cases hd : c.isDigit with
  | false => rfl
  | true => rw [isAlpha_of_isDigit c hd] at h; exact Bool.noConfusion h

theorem takeWhile_append_stop (q : Char → Bool) (a b : List Char)
    (ha : ∀ c ∈ a, q c = true) (hb : ∀ c, b.head? = some c → q c = false) :
    (a ++ b).takeWhile q = a := by
  induction a with
  | nil =>
    cases b with
    | nil => rfl
    | cons x xs => simp [List.takeWhile, hb x rfl]
  | cons x xs ih =>
    have hx : q x = true := ha x (by simp)
    rw [List.cons_append, List.takeWhile_cons_of_pos hx,
      ih (fun c hc => ha c (by simp [hc]))]

/-- The legacy branch does what C6 says whenever the letter run has no `p`. -/
theorem growPartition_legacy_without_p (env : Env) (L D : String) (t : List Event)
    (hal : ∀ c ∈ L.toList, c.isAlpha = true) (hp : 'p' ∉ L.toList)
    (hne : D.toList ≠ []) (hdig : ∀ c ∈ D.toList, c.isDigit = true) :
    growPartition env ("/dev/xvd" ++ L ++ D) t
      = cmdRun env "growpart" ["/dev/xvd" ++ L, D]
          (t ++ [.log ("Starting growpart for " ++ ("/dev/xvd" ++ L ++ D))]) := by
  have hl : ("/dev/xvd" ++ L ++ D).toList
      = '/' :: 'd' :: 'e' :: 'v' :: '/' :: 'x' :: 'v' :: 'd' :: (L.toList ++ D.toList) := by
    simp [String.toList]
  have hpD : 'p' ∉ D.toList := fun h => absurd (hdig 'p' h) (by decide)
  obtain ⟨c, hc⟩ : ∃ c, D.toList.getLast? = some c := by
    cases hD : D.toList.getLast? with
    | none => exact absurd (List.getLast?_eq_none_iff.mp hD) hne
    | some c => exact ⟨c, rfl⟩
  obtain ⟨d, hd⟩ : ∃ d, D.toList = d ++ [c] :=
    ⟨_, (List.dropLast_append_getLast? c hc).symm⟩
  have hcd : c.isDigit = true := hdig c (by rw [hd]; simp)
  have hnl : isLetter ("/dev/xvd" ++ L ++ D).toList = false := by
    rw [hl, hd]
    have := isLetter_false_of_digit_end
      ('/' :: 'd' :: 'e' :: 'v' :: '/' :: 'x' :: 'v' :: 'd' :: L.toList) d c hcd
    simpa using this
  have hidx : stringsLastIndex 'p' ("/dev/xvd" ++ L ++ D).toList = none := by
    apply stringsLastIndex_eq_none
    rw [hl]
    simp only [List.mem_cons, List.mem_append, not_or]
    refine ⟨by decide, by decide, by decide, by decide, by decide, by decide, by decide,
      by decide, hp, hpD⟩
  have hcont : stringsContains ("/dev/xvd" ++ L ++ D).toList "xvd".toList = true := by
    rw [hl]
    simp [stringsContains, String.toList, List.isPrefixOf]
  have hfind : findNonDigits ("/dev/xvd" ++ L ++ D).toList = ("/dev/xvd" ++ L).toList := by
    have hl2 : ("/dev/xvd" ++ L).toList
        = '/' :: 'd' :: 'e' :: 'v' :: '/' :: 'x' :: 'v' :: 'd' :: L.toList := by
      simp [String.toList]
    have hsplit : ("/dev/xvd" ++ L ++ D).toList = ("/dev/xvd" ++ L).toList ++ D.toList := by
      simp
    unfold findNonDigits
    rw [hl, List.dropWhile_cons_of_neg (by decide), ← hl, hsplit]
    apply takeWhile_append_stop
    · intro x hx
      rw [hl2] at hx
      simp only [List.mem_cons] at hx
      rcases hx with h | h | h | h | h | h | h | h | h
      all_goals first
        | (subst h; decide)
        | (rw [isDigit_of_isAlpha x (hal x h)]; rfl)
    · intro x hx
      have : x ∈ D.toList := List.mem_of_mem_head? hx
      rw [hdig x this]; rfl
  unfold growPartition
  rw [hnl]
  simp only [Bool.false_eq_true, if_false]
  rw [hidx]
  simp only [hcont, if_true]
  rw [hfind]
  have hdrop : List.drop ("/dev/xvd" ++ L).toList.length ("/dev/xvd" ++ L ++ D).toList
      = D.toList := by
    rw [show ("/dev/xvd" ++ L ++ D).toList = ("/dev/xvd" ++ L).toList ++ D.toList by simp]
    exact List.drop_left' rfl
  rw [hdrop]
  rfl

/-! ## The claims -/

/-- C3: for a byte count that is a whole number `g` of GiB and a non-negative
integral percentage `p` whose exact result fits in an `int32`, `findNewSize`
returns `⌊g + g * p / 100⌋`, here `g + g * p / 100` with natural-number
division; in particular `findNewSize (100 * 2 ^ 30) 20 = 120`. -/
theorem findNewSize_whole_gib (g p : Nat) (hg : g * 2 ^ 30 < 2 ^ 64)
    (hfit : g + g * p / 100 < 2 ^ 31) :
    findNewSize (g * 2 ^ 30) (p : ℚ) = some (⌊(g : ℚ) + (g : ℚ) * (p : ℚ) / 100⌋)
      ∧ findNewSize (100 * 2 ^ 30) 20 = some 120 := by
  have hfloor := floor_whole_gib g p
  refine ⟨?_, ?_⟩
  · rw [hfloor]; exact findNewSize_gib g p hg hfit
  · have := findNewSize_gib 100 20 (by norm_num) (by norm_num)
    simpa using this

/-- Witness of C3 at 100 GiB and 20 percent. -/
theorem findNewSize_whole_gib_witness :
    findNewSize (100 * 2 ^ 30) ((20 : Nat) : ℚ)
      = some (⌊((100 : Nat) : ℚ) + ((100 : Nat) : ℚ) * ((20 : Nat) : ℚ) / 100⌋) :=
  (findNewSize_whole_gib 100 20 (by norm_num) (by norm_num)).1

/-- C7: for a device path `parent ++ "p" ++ D` with `D` a non-empty run of
decimal digits, `growPartition` logs its start and runs `growpart parent D`,
whatever the parent is; the outcome is the outcome of that command. -/
theorem growPartition_namespace_suffix (env : Env) (parent D : String) (t : List Event)
    (hne : D.toList ≠ []) (hdig : ∀ c ∈ D.toList, c.isDigit = true) :
    growPartition env (parent ++ "p" ++ D) t
        = cmdRun env "growpart" [parent, D]
            (t ++ [.log ("Starting growpart for " ++ (parent ++ "p" ++ D))])
      ∧ (growPartition env (parent ++ "p" ++ D) t).2
        = t ++ [.log ("Starting growpart for " ++ (parent ++ "p" ++ D)),
                .run "growpart" [parent, D]] := by
  have hl : (parent ++ "p" ++ D).toList = parent.toList ++ 'p' :: D.toList := by simp
  have hp : 'p' ∉ D.toList := fun h => absurd (hdig 'p' h) (by decide)
  obtain ⟨c, hc⟩ : ∃ c, D.toList.getLast? = some c := by
    cases hD : D.toList.getLast? with
    | none => exact absurd (List.getLast?_eq_none_iff.mp hD) hne
    | some c => exact ⟨c, rfl⟩
  obtain ⟨d, hd⟩ : ∃ d, D.toList = d ++ [c] := by
    have := List.dropLast_append_getLast? c hc
    exact ⟨_, this.symm⟩
  have hcd : c.isDigit = true := hdig c (by rw [hd]; simp)
  have hnl : isLetter (parent ++ "p" ++ D).toList = false := by
    rw [hl, hd]
    have := isLetter_false_of_digit_end (parent.toList ++ ['p']) d c hcd
    simpa using this
  have hidx := stringsLastIndex_append_cons 'p' parent.toList D.toList hp
  have key : growPartition env (parent ++ "p" ++ D) t
        = cmdRun env "growpart" [parent, D]
            (t ++ [.log ("Starting growpart for " ++ (parent ++ "p" ++ D))]) := by
    unfold growPartition
    rw [hnl]
    simp only [Bool.false_eq_true, if_false]
    rw [hl, hidx]
    simp only
    have e1 : List.take parent.toList.length (parent.toList ++ 'p' :: D.toList)
        = parent.toList := List.take_left' rfl
    have e2 : List.drop (parent.toList.length + 1) (parent.toList ++ 'p' :: D.toList)
        = D.toList := by
      rw [show parent.toList ++ 'p' :: D.toList = (parent.toList ++ ['p']) ++ D.toList by simp]
      exact List.drop_left' (by simp)
    rw [e1, e2]
    rfl
  refine ⟨key, ?_⟩
  rw [key]
  unfold cmdRun
  split <;> simp

/-- Witness of C7 at `/dev/nvme1n1p1`. -/
theorem growPartition_namespace_suffix_witness :
    (growPartition envOk ("/dev/nvme1n1" ++ "p" ++ "1") []).2
      = [] ++ [.log ("Starting growpart for " ++ ("/dev/nvme1n1" ++ "p" ++ "1")),
               .run "growpart" ["/dev/nvme1n1", "1"]] :=
  (growPartition_namespace_suffix envOk "/dev/nvme1n1" "1" [] (by decide) (by decide)).2

/-- C8: for a device path `"/dev/"` followed by one or more ASCII letters (also
when a letter is `p`), `growPartition` returns `nil` after writing two log
lines; it runs no command. -/
theorem growPartition_whole_disk (env : Env) (L : String) (t : List Event)
    (hne : L.toList ≠ []) (hal : ∀ c ∈ L.toList, c.isAlpha = true) :
    growPartition env ("/dev/" ++ L) t
        = (.ok (), t ++ [.log ("Starting growpart for " ++ ("/dev/" ++ L)),
            .log ("Grow partition for " ++ ("/dev/" ++ L) ++ " not required")])
      ∧ ∀ name args, Event.run name args ∉ (growPartition env ("/dev/" ++ L) t).2.drop t.length := by
  have hl : ("/dev/" ++ L).toList = '/' :: 'd' :: 'e' :: 'v' :: '/' :: L.toList := by
    simp [String.toList]
  have hlet : isLetter ("/dev/" ++ L).toList = true := by
    rw [hl]; exact isLetter_dev_letters _ hne hal
  have key : growPartition env ("/dev/" ++ L) t
        = (.ok (), t ++ [.log ("Starting growpart for " ++ ("/dev/" ++ L)),
            .log ("Grow partition for " ++ ("/dev/" ++ L) ++ " not required")]) := by
    unfold growPartition
    rw [hlet]
    simp
  refine ⟨key, ?_⟩
  intro name args
  rw [key]
  simp

/-- Witness of C8 at `/dev/xvdp`, a whole disk whose name contains `p`. -/
theorem growPartition_whole_disk_witness :
    growPartition envOk ("/dev/" ++ "xvdp") []
      = (.ok (), [] ++ [.log ("Starting growpart for " ++ ("/dev/" ++ "xvdp")),
          .log ("Grow partition for " ++ ("/dev/" ++ "xvdp") ++ " not required")]) :=
  (growPartition_whole_disk envOk "xvdp" [] (by decide) (by decide)).1

/-- C6: on the legacy path `/dev/xvdp1` the source splits at the letter `p`
and runs `growpart /dev/xvd 1`, not `growpart /dev/xvdp 1`; on `/dev/xvdf1`,
which has no `p`, it runs `growpart /dev/xvdf 1`. -/
theorem growPartition_xvdp1 (env : Env) (t : List Event) :
    growPartition env "/dev/xvdp1" t
        = cmdRun env "growpart" ["/dev/xvd", "1"]
            (t ++ [.log "Starting growpart for /dev/xvdp1"])
      ∧ growPartition env "/dev/xvdf1" t
        = cmdRun env "growpart" ["/dev/xvdf", "1"]
            (t ++ [.log "Starting growpart for /dev/xvdf1"]) :=
  ⟨rfl, rfl⟩

/-- C10: when the first `k` polls find the state `modifying` and the client
can be built for each poll, then with more than `k` units of fuel
`waitForEbsResize` stops at poll `k + 1`: it returns `nil` if that poll finds
another state, and returns the poll's error if that poll fails; in both cases
it has made `k + 1` polls and slept 15 seconds `k` times. -/
theorem waitForEbsResize_polls (env : Env) (volumeID : String) (t : List Event)
    (k fuel : Nat)
    (hcl : ∀ i, i ≤ k → env.getEc2Client (t ++ modifyingRounds volumeID i) = none)
    (hmod : ∀ i, i < k → ∃ rest, env.describeVolumesModifications
        (t ++ modifyingRounds volumeID i ++ [.getEc2Client]) volumeID
          = .ok ("modifying" :: rest))
    (hfuel : k < fuel) :
    (∀ state rest, state ≠ "modifying" →
        env.describeVolumesModifications
          (t ++ modifyingRounds volumeID k ++ [.getEc2Client]) volumeID = .ok (state :: rest) →
        waitForEbsResize env fuel volumeID t
          = (.ok (), t ++ modifyingRounds volumeID k
              ++ [.getEc2Client, .describeVolumesModifications volumeID]))
      ∧ (∀ e, env.describeVolumesModifications
          (t ++ modifyingRounds volumeID k ++ [.getEc2Client]) volumeID = .error e →
        waitForEbsResize env fuel volumeID t
          = (.err (.ext e), t ++ modifyingRounds volumeID k
              ++ [.getEc2Client, .describeVolumesModifications volumeID]))
      ∧ List.count (Event.describeVolumesModifications volumeID)
          (modifyingRounds volumeID k
            ++ [.getEc2Client, .describeVolumesModifications volumeID]) = k + 1
      ∧ List.count (Event.sleep 15)
          (modifyingRounds volumeID k
            ++ [.getEc2Client, .describeVolumesModifications volumeID]) = k := by
  obtain ⟨n, hn⟩ : ∃ n, fuel = (n + 1) + k := ⟨fuel - k - 1, by omega⟩
  have hskip := waitForEbsResize_skip env volumeID (n + 1) k t
    (fun i hi => hcl i (Nat.le_of_lt hi)) hmod
  have hck := hcl k (Nat.le_refl k)
  refine ⟨?_, ?_, ?_, ?_⟩
  · intro state rest hstate hresp
    rw [hn, hskip, waitForEbsResize, hck]
    simp only
    rw [hresp]
    simp [hstate]
  · intro e hresp
    rw [hn, hskip, waitForEbsResize, hck]
    simp only
    rw [hresp]
  · rw [List.count_append, count_describe_modifyingRounds]
    simp [List.count_cons]
  · rw [List.count_append, count_sleep_modifyingRounds]
    simp [List.count_cons]

/-- Witness of C10: two polls find `modifying`, the third finds `completed`. -/
theorem waitForEbsResize_polls_witness :
    waitForEbsResize envSlow 3 "vol-0a1" []
      = (.ok (), [] ++ modifyingRounds "vol-0a1" 2
          ++ [.getEc2Client, .describeVolumesModifications "vol-0a1"]) :=
  (waitForEbsResize_polls envSlow "vol-0a1" [] 2 3 (fun _ _ => rfl)
    (fun i hi => by
      have : i = 0 ∨ i = 1 := by omega
      rcases this with h | h <;> subst h <;> exact ⟨[], rfl⟩)
    (by decide)).1 "completed" [] (by decide) rfl

/-- C4: when the modify-volume request fails with the API error code
`VolumeModificationRateExceeded` or `IncorrectModificationState`, `ebsResize`
returns `errVolumeRetryLater` after one log line and without polling.  The
run then consists of the five events of this disk (two log lines, the client,
the request, the deferral log line: no poll, no `growpart`, no filesystem
command, no fatal exit) followed by the run over the remaining disks: the
next disk, if there is one, is the next thing the loop handles (its skip line
when it is below the threshold, its `ebsResize` call when it is not), and
when there is none the run returns normally. -/
theorem ebsResize_deferral (env : Env) (fuel : Nat) (p thr : ℚ) (d : DiskData)
    (ds : List DiskData) (t : List Event) (code message : String)
    (hover : thr ≤ d.TotalUsed)
    (hcl : env.getEc2Client (t ++ [.log ("Starting resize of " ++ d.DeviceName)]) = none)
    (hmv : env.modifyVolume
        (t ++ [.log ("Starting resize of " ++ d.DeviceName), .getEc2Client,
          .log ("Starting resize of ebs volume " ++ d.VolumeID)])
        d.VolumeID (requestedSize env p d) = some (.api code message))
    (hcode : code = "VolumeModificationRateExceeded" ∨ code = "IncorrectModificationState") :
    ebsResize env fuel (requestedSize env p d) d.VolumeID
        (t ++ [.log ("Starting resize of " ++ d.DeviceName)])
      = (.err .volumeRetryLater,
          (t ++ [.log ("Starting resize of " ++ d.DeviceName), .getEc2Client,
            .log ("Starting resize of ebs volume " ++ d.VolumeID),
            .modifyVolume d.VolumeID (requestedSize env p d),
            .log (if code = "VolumeModificationRateExceeded"
              then "Ebs was already resized, wait for 6 hours before next resize"
              else message)]))
    ∧ resizeLoop env fuel p thr (d :: ds) t
      = resizeLoop env fuel p thr ds
          (t ++ [.log ("Starting resize of " ++ d.DeviceName), .getEc2Client,
            .log ("Starting resize of ebs volume " ++ d.VolumeID),
            .modifyVolume d.VolumeID (requestedSize env p d),
            .log (if code = "VolumeModificationRateExceeded"
              then "Ebs was already resized, wait for 6 hours before next resize"
              else message)])
    ∧ (t ++ [.log ("Starting resize of " ++ d.DeviceName), .getEc2Client,
            .log ("Starting resize of ebs volume " ++ d.VolumeID),
            .modifyVolume d.VolumeID (requestedSize env p d),
            .log (if code = "VolumeModificationRateExceeded"
              then "Ebs was already resized, wait for 6 hours before next resize"
              else message)])
        <+: (resizeLoop env fuel p thr (d :: ds) t).2
    ∧ (∀ d2 rest, ds = d2 :: rest → d2.TotalUsed < thr →
        (t ++ [.log ("Starting resize of " ++ d.DeviceName), .getEc2Client,
            .log ("Starting resize of ebs volume " ++ d.VolumeID),
            .modifyVolume d.VolumeID (requestedSize env p d),
            .log (if code = "VolumeModificationRateExceeded"
              then "Ebs was already resized, wait for 6 hours before next resize"
              else message)])
            ++ [.log ("Resize for " ++ d2.DeviceName ++ " not required")]
          <+: (resizeLoop env fuel p thr (d :: ds) t).2)
    ∧ (∀ d2 rest, ds = d2 :: rest → thr ≤ d2.TotalUsed →
        (ebsResize env fuel (requestedSize env p d2) d2.VolumeID
            ((t ++ [.log ("Starting resize of " ++ d.DeviceName), .getEc2Client,
            .log ("Starting resize of ebs volume " ++ d.VolumeID),
            .modifyVolume d.VolumeID (requestedSize env p d),
            .log (if code = "VolumeModificationRateExceeded"
              then "Ebs was already resized, wait for 6 hours before next resize"
              else message)])
              ++ [.log ("Starting resize of " ++ d2.DeviceName)])).2
          <+: (resizeLoop env fuel p thr (d :: ds) t).2
        ∧ (t ++ [.log ("Starting resize of " ++ d.DeviceName), .getEc2Client,
            .log ("Starting resize of ebs volume " ++ d.VolumeID),
            .modifyVolume d.VolumeID (requestedSize env p d),
            .log (if code = "VolumeModificationRateExceeded"
              then "Ebs was already resized, wait for 6 hours before next resize"
              else message)])
            ++ [.log ("Starting resize of " ++ d2.DeviceName)] ++ [.getEc2Client]
          <+: (resizeLoop env fuel p thr (d :: ds) t).2)
    ∧ (ds = [] →
        resizeLoop env fuel p thr (d :: ds) t
          = (.returned,
              (t ++ [.log ("Starting resize of " ++ d.DeviceName), .getEc2Client,
            .log ("Starting resize of ebs volume " ++ d.VolumeID),
            .modifyVolume d.VolumeID (requestedSize env p d),
            .log (if code = "VolumeModificationRateExceeded"
              then "Ebs was already resized, wait for 6 hours before next resize"
              else message)]))) := by
  have key : ebsResize env fuel (requestedSize env p d) d.VolumeID
        (t ++ [.log ("Starting resize of " ++ d.DeviceName)])
      = (.err .volumeRetryLater,
          (t ++ [.log ("Starting resize of " ++ d.DeviceName), .getEc2Client,
            .log ("Starting resize of ebs volume " ++ d.VolumeID),
            .modifyVolume d.VolumeID (requestedSize env p d),
            .log (if code = "VolumeModificationRateExceeded"
              then "Ebs was already resized, wait for 6 hours before next resize"
              else message)])) := by
    unfold ebsResize
    rw [hcl]
    simp only [List.append_assoc, List.cons_append, List.nil_append]
    rw [hmv]
    rcases hcode with h | h
    · simp [h]
    · subst h
      simp
  have hloop : resizeLoop env fuel p thr (d :: ds) t
      = resizeLoop env fuel p thr ds
          (t ++ [.log ("Starting resize of " ++ d.DeviceName), .getEc2Client,
            .log ("Starting resize of ebs volume " ++ d.VolumeID),
            .modifyVolume d.VolumeID (requestedSize env p d),
            .log (if code = "VolumeModificationRateExceeded"
              then "Ebs was already resized, wait for 6 hours before next resize"
              else message)]) := by
    rw [resizeLoop_cons_over env fuel p thr d ds t (not_lt.mpr hover), key]
  refine ⟨key, hloop, ?_, ?_, ?_, ?_⟩
  · rw [hloop]
    exact resizeLoop_extends env fuel p thr ds _
  · intro d2 rest hds hlow
    rw [hloop, hds, resizeLoop, if_pos hlow]
    exact resizeLoop_extends env fuel p thr rest _
  · intro d2 rest hds hover2
    rw [hloop, hds]
    have h1 := resizeLoop_cons_over_extends env fuel p thr d2 rest
      (t ++ [.log ("Starting resize of " ++ d.DeviceName), .getEc2Client,
            .log ("Starting resize of ebs volume " ++ d.VolumeID),
            .modifyVolume d.VolumeID (requestedSize env p d),
            .log (if code = "VolumeModificationRateExceeded"
              then "Ebs was already resized, wait for 6 hours before next resize"
              else message)]) (not_lt.mpr hover2)
    exact ⟨h1, (ebsResize_client_first env fuel _ _ _).trans h1⟩
  · intro hds
    rw [hloop, hds, resizeLoop]

/-- Witness of C4: a run over two disks.  The first request is refused with
`VolumeModificationRateExceeded`, and the loop goes on to call `ebsResize`
for the second disk; the second request is refused with
`IncorrectModificationState`, and the run returns. -/
theorem ebsResize_deferral_witness :
    ([] ++ [.log ("Starting resize of " ++ diskFull.DeviceName), .getEc2Client,
          .log ("Starting resize of ebs volume " ++ diskFull.VolumeID),
          .modifyVolume diskFull.VolumeID (requestedSize envDeferred 20 diskFull),
          .log (if "VolumeModificationRateExceeded" = "VolumeModificationRateExceeded"
            then "Ebs was already resized, wait for 6 hours before next resize"
            else "You've reached the maximum modification rate.")]
        ++ [.log ("Starting resize of " ++ diskSecond.DeviceName)] ++ [.getEc2Client]
        <+: (resizeLoop envDeferred 1 20 85 (diskFull :: [diskSecond]) []).2)
      ∧ resizeLoop envDeferred 1 20 85 (diskSecond :: [])
          [.log "Starting resize of /dev/xvdf1", .getEc2Client,
            .log "Starting resize of ebs volume vol-0a1",
            .modifyVolume "vol-0a1" (requestedSize envDeferred 20 diskFull),
            .log "Ebs was already resized, wait for 6 hours before next resize"]
        = (.returned,
            [.log "Starting resize of /dev/xvdf1", .getEc2Client,
              .log "Starting resize of ebs volume vol-0a1",
              .modifyVolume "vol-0a1" (requestedSize envDeferred 20 diskFull),
              .log "Ebs was already resized, wait for 6 hours before next resize"]
            ++ [.log ("Starting resize of " ++ diskSecond.DeviceName), .getEc2Client,
              .log ("Starting resize of ebs volume " ++ diskSecond.VolumeID),
              .modifyVolume diskSecond.VolumeID (requestedSize envDeferred 20 diskSecond),
              .log (if "IncorrectModificationState" = "VolumeModificationRateExceeded"
                then "Ebs was already resized, wait for 6 hours before next resize"
                else "Volume is not in a modifiable state.")]) :=
  ⟨((ebsResize_deferral envDeferred 1 20 85 diskFull [diskSecond] []
      "VolumeModificationRateExceeded" "You've reached the maximum modification rate."
      (by decide!) rfl rfl (Or.inl rfl)).2.2.2.2.1 diskSecond [] rfl (by decide!)).2,
   (ebsResize_deferral envDeferred 1 20 85 diskSecond []
      [.log "Starting resize of /dev/xvdf1", .getEc2Client,
        .log "Starting resize of ebs volume vol-0a1",
        .modifyVolume "vol-0a1" (requestedSize envDeferred 20 diskFull),
        .log "Ebs was already resized, wait for 6 hours before next resize"]
      "IncorrectModificationState" "Volume is not in a modifiable state."
      (by decide!) rfl rfl (Or.inr rfl)).2.2.2.2.2 rfl⟩

/-- C1: with the API error code `UnauthorizedOperation` on the modify-volume
request, `ebsResize` does not return the error: it goes on to poll the
modification status and returns `nil`, and the run grows the partition and
the filesystem and returns normally. -/
theorem ebsResize_other_api_error_polls :
    ebsResize envUnauthorized 1 120 "vol-0a1" []
        = (.ok (), [.getEc2Client, .log "Starting resize of ebs volume vol-0a1",
            .modifyVolume "vol-0a1" 120,
            .getEc2Client, .describeVolumesModifications "vol-0a1"])
      ∧ ResizeDisk envUnauthorized 1 20 85 []
        = (.returned, [.partitions, .getEc2Client, .getInstanceID,
            .describeVolumes "/dev/sdf1" "i-0123", .usage "/data",
            .log "Starting resize of /dev/xvdf1",
            .getEc2Client, .log "Starting resize of ebs volume vol-0a1",
            .modifyVolume "vol-0a1" 120,
            .getEc2Client, .describeVolumesModifications "vol-0a1",
            .log "Starting growpart for /dev/xvdf1", .run "growpart" ["/dev/xvdf", "1"],
            .log "Starting system volume resize for /dev/xvdf1",
            .run "resize2fs" ["/dev/xvdf1"]]) := by
  constructor <;> decide!

/-- C9: when the volume lookup succeeds with zero volumes, `filterDisks` does
not return an error: after probing the usage it panics on `Volumes[0]`. -/
theorem filterDisks_no_volume_panics :
    filterDisks envNoVolume []
      = (.panic "index out of range [0] with length 0",
          [.partitions, .getEc2Client, .getInstanceID,
            .describeVolumes "/dev/sdf1" "i-0123", .usage "/data"]) := by
  decide!

/-- C2, as stated, fails: for a record with a 100 GiB volume and a 50 GiB
filesystem, over the threshold, with 20 percent, the request is for 60 GiB,
not for the 120 GiB that the volume size would give. -/
theorem resizeLoop_request_not_from_volumeSize :
    resizeLoop envOk 1 20 85 [diskHalf] []
        = (.returned, [.log "Starting resize of /dev/xvdf1",
            .getEc2Client, .log "Starting resize of ebs volume vol-0a1",
            .modifyVolume "vol-0a1" 60,
            .getEc2Client, .describeVolumesModifications "vol-0a1",
            .log "Starting growpart for /dev/xvdf1", .run "growpart" ["/dev/xvdf", "1"],
            .log "Starting system volume resize for /dev/xvdf1",
            .run "resize2fs" ["/dev/xvdf1"]])
      ∧ (85 : ℚ) ≤ diskHalf.TotalUsed
      ∧ ⌊(diskHalf.VolumeSize : ℚ) + (diskHalf.VolumeSize : ℚ) * 20 / 100⌋ = 120
      ∧ Event.modifyVolume "vol-0a1" 120 ∉ (resizeLoop envOk 1 20 85 [diskHalf] []).2 := by
  refine ⟨?_, ?_, ?_, ?_⟩ <;> decide!

/-- C2, amended: for a record at or over the threshold (and a client that can
be built), the modify-volume request is the first thing done to the cloud for
that disk, and its size is `int32(findNewSize(TotalSpace, increasePercent))`:
it is computed from the filesystem capacity `TotalSpace`, and for a capacity
of `g` whole GiB and an integral percentage `n` whose result fits in an
`int32` it is `⌊g + g * n / 100⌋`, whatever `VolumeSize` is. -/
theorem resizeLoop_request_from_totalSpace (env : Env) (fuel : Nat) (p thr : ℚ)
    (d : DiskData) (ds : List DiskData) (t : List Event)
    (hover : thr ≤ d.TotalUsed)
    (hcl : env.getEc2Client (t ++ [.log ("Starting resize of " ++ d.DeviceName)]) = none) :
    t ++ [.log ("Starting resize of " ++ d.DeviceName), .getEc2Client,
          .log ("Starting resize of ebs volume " ++ d.VolumeID),
          .modifyVolume d.VolumeID (requestedSize env p d)]
        <+: (resizeLoop env fuel p thr (d :: ds) t).2
      ∧ requestedSize env p d
          = (findNewSize d.TotalSpace p).getD (env.int32OutOfRange d.TotalSpace p)
      ∧ ∀ g n : Nat, d.TotalSpace = g * 2 ^ 30 → p = (n : ℚ) → g * 2 ^ 30 < 2 ^ 64 →
          g + g * n / 100 < 2 ^ 31 →
          requestedSize env p d = ⌊(g : ℚ) + (g : ℚ) * (n : ℚ) / 100⌋ := by
  refine ⟨?_, rfl, ?_⟩
  · have h1 := ebsResize_request_first env fuel (requestedSize env p d) d.VolumeID _ hcl
    have h2 := resizeLoop_cons_over_extends env fuel p thr d ds t (not_lt.mpr hover)
    have h3 := h1.trans h2
    simpa using h3
  · intro g n hsp hp hg hfit
    unfold requestedSize
    rw [hsp, hp, findNewSize_gib g n hg hfit, floor_whole_gib]
    rfl

/-- Witness of C2, amended: 100 GiB of filesystem and 20 percent give 120. -/
theorem resizeLoop_request_from_totalSpace_witness :
    requestedSize envOk ((20 : Nat) : ℚ) diskFull
      = ⌊((100 : Nat) : ℚ) + ((100 : Nat) : ℚ) * ((20 : Nat) : ℚ) / 100⌋ :=
  (resizeLoop_request_from_totalSpace envOk 1 ((20 : Nat) : ℚ) 85 diskFull [] []
    (by decide!) rfl).2.2 100 20 (by decide) rfl (by norm_num) (by norm_num)

/-- C5: in a run over `pre ++ d :: post`, nothing is done for `d` when an
earlier disk ended the run; otherwise a disk strictly below the threshold adds
one log line and the loop moves on (no `ebsResize` call, no request), and for
a disk at or over the threshold `ebsResize` is called with that disk's
volume, and everything the call does (first of all building the client) is
part of the run. -/
theorem resizeLoop_threshold_gate (env : Env) (fuel : Nat) (p thr : ℚ)
    (pre : List DiskData) (d : DiskData) (post : List DiskData) (t : List Event) :
    ((resizeLoop env fuel p thr pre t).1 ≠ .returned →
        resizeLoop env fuel p thr (pre ++ d :: post) t = resizeLoop env fuel p thr pre t)
      ∧ ((resizeLoop env fuel p thr pre t).1 = .returned → d.TotalUsed < thr →
        resizeLoop env fuel p thr (pre ++ d :: post) t
          = resizeLoop env fuel p thr post
              ((resizeLoop env fuel p thr pre t).2
                ++ [.log ("Resize for " ++ d.DeviceName ++ " not required")]))
      ∧ ((resizeLoop env fuel p thr pre t).1 = .returned → thr ≤ d.TotalUsed →
        (ebsResize env fuel (requestedSize env p d) d.VolumeID
            ((resizeLoop env fuel p thr pre t).2
              ++ [.log ("Starting resize of " ++ d.DeviceName)])).2
          <+: (resizeLoop env fuel p thr (pre ++ d :: post) t).2
        ∧ (resizeLoop env fuel p thr pre t).2
              ++ [.log ("Starting resize of " ++ d.DeviceName), .getEc2Client]
          <+: (resizeLoop env fuel p thr (pre ++ d :: post) t).2) := by
  refine ⟨?_, ?_, ?_⟩
  · intro h
    rw [resizeLoop_append, if_neg h]
  · intro h hlow
    rw [resizeLoop_append, if_pos h, resizeLoop, if_pos hlow]
  · intro h hover
    rw [resizeLoop_append, if_pos h]
    have h1 := resizeLoop_cons_over_extends env fuel p thr d post
      (resizeLoop env fuel p thr pre t).2 (not_lt.mpr hover)
    refine ⟨h1, List.IsPrefix.trans ?_ h1⟩
    unfold ebsResize
    split
    · simp
    · simp only
      have e : ∀ (a : List Event) (x y : Event), a ++ [x, y] = a ++ [x] ++ [y] := by
        intro a x y; simp
      split
      · split
        · rw [e]; simp
        · split
          · rw [e]; simp
          · refine List.IsPrefix.trans ?_ (waitForEbsResize_extends env _ fuel _)
            rw [e]; simp
      · rw [e]; simp
      · refine List.IsPrefix.trans ?_ (waitForEbsResize_extends env _ fuel _)
        rw [e]; simp

/-- Witness of C5: a disk at 10 % is skipped with one log line, and for the disk
at 92 % after it the client is built. -/
theorem resizeLoop_threshold_gate_witness :
    resizeLoop envOk 1 20 85 ([] ++ diskLow :: [diskFull]) []
        = resizeLoop envOk 1 20 85 [diskFull]
            ((resizeLoop envOk 1 20 85 [] []).2
              ++ [.log ("Resize for " ++ diskLow.DeviceName ++ " not required")])
      ∧ (resizeLoop envOk 1 20 85 [diskLow] []).2
            ++ [.log ("Starting resize of " ++ diskFull.DeviceName), .getEc2Client]
          <+: (resizeLoop envOk 1 20 85 ([diskLow] ++ diskFull :: []) []).2 :=
  ⟨(resizeLoop_threshold_gate envOk 1 20 85 [] diskLow [diskFull] []).2.1 rfl (by decide!),
   ((resizeLoop_threshold_gate envOk 1 20 85 [diskLow] diskFull [] []).2.2
      (by decide!) (by decide!)).2⟩

end Volumes
